import Mathlib

/-!
Shallow embedding of `pymysqlreplication/event.py` (binlog event decoding)
and theorems about its specified behaviour.

The event decoders (`BinLogEvent`, `GtidEvent`, `RotateEvent`, `XidEvent`,
`QueryEvent`, `NotImplementedEvent`, `iter_bytes_to_string`, `dump`) are
translated from the source file.  The packet cursor (`BinLogPacketWrapper`)
and the dispatcher live outside the given source slice, so they are
modelled from the spec, as marked on each such definition.

Conventions: machine bytes are `Nat`s (< 256 where it matters), Python
`bytes` values are `List Nat`, Python `str` values are lists of Unicode
code points (`List Nat`), Python exceptions are `Except DecodeError`.
-/

/-- Error kinds, following the spec's error-handling design (§7):
`malformedPayload` for length arithmetic that yields a negative or
out-of-range read, `keyError` for a missing required keyword argument,
and `textDecodeFailure` for a primary text field that is not valid UTF-8. -/
inductive DecodeError : Type where
  | malformedPayload : DecodeError
  | keyError : DecodeError
  | textDecodeFailure : DecodeError
deriving DecidableEq, Repr

/-- Little-endian value of a byte list (first byte least significant),
the semantics of Python's struct.unpack with formats such as <Q, <I, <H. -/
def leNat (bs : List Nat) : Nat :=
  bs.foldr (fun b acc => b + 256 * acc) 0

/-- Modelled from the spec: the packet cursor collaborator
(`BinLogPacketWrapper`) is not part of the given source slice.  Per §2 it
is a sequential reader over the packet's byte buffer that tracks total
bytes consumed, and per §4.1/§4.2 it also carries the already-parsed
envelope fields (`event_type`, `timestamp`, `log_pos`, `flags`). -/
structure Packet : Type where
  data : List Nat
  position : Nat
  read_bytes : Nat
  event_type : Nat
  timestamp : Nat
  log_pos : Nat
  flags : Nat
deriving DecidableEq, Repr

/-- Modelled from the spec: `packet.read(size)`.  Reads are bounds-checked
by the cursor (§7); a negative or out-of-range requested length fails with
`MalformedPayload` rather than reading out of bounds (§4.2).  On success it
returns exactly the requested bytes and advances the consumed-bytes
bookkeeping. -/
def Packet.read (p : Packet) (n : Int) : Except DecodeError (List Nat × Packet) :=
  if n < 0 then .error .malformedPayload
  else if p.position + n.toNat ≤ p.data.length then
    .ok ((p.data.drop p.position).take n.toNat,
      { p with position := p.position + n.toNat,
               read_bytes := p.read_bytes + n.toNat })
  else .error .malformedPayload

/-- Modelled from the spec: `packet.advance(size)`, a positional skip that
still counts toward total bytes consumed (§2). -/
def Packet.advance (p : Packet) (n : Int) : Except DecodeError Packet :=
  match p.read n with
  | .ok (_, p') => .ok p'
  | .error e => .error e

/-- Modelled from the spec: `packet.read_uint32()`, a fixed-width
little-endian integer read (§2). -/
def Packet.read_uint32 (p : Packet) : Except DecodeError (Nat × Packet) :=
  match p.read 4 with
  | .ok (bs, p') => .ok (leNat bs, p')
  | .error e => .error e

/-- Modelled from the spec: `packet.read_uint16()`, a fixed-width
little-endian integer read (§2). -/
def Packet.read_uint16 (p : Packet) : Except DecodeError (Nat × Packet) :=
  match p.read 2 with
  | .ok (bs, p') => .ok (leNat bs, p')
  | .error e => .error e

/-- `byte2int` from pymysql.util: the integer value of a 1-byte string. -/
def byte2int (bs : List Nat) : Nat := bs.headD 0

theorem Packet.read_ok {p : Packet} {n : Int} {bs : List Nat} {p' : Packet}
    (h : p.read n = .ok (bs, p')) :
    0 ≤ n ∧ p.position + n.toNat ≤ p.data.length ∧
    bs = (p.data.drop p.position).take n.toNat ∧
    p' = { p with position := p.position + n.toNat,
                  read_bytes := p.read_bytes + n.toNat } := by
  unfold Packet.read at h
  split at h
  · exact absurd h (by simp)
  · split at h
    · refine ⟨by omega, by assumption, ?_, ?_⟩ <;>
        { cases h; simp_all }
    · exact absurd h (by simp)

theorem Packet.read_ok_length {p : Packet} {n : Int} {bs : List Nat} {p' : Packet}
    (h : p.read n = .ok (bs, p')) : bs.length = n.toNat := by
  obtain ⟨_, hle, hbs, _⟩ := Packet.read_ok h
  subst hbs
  simp [List.length_take, List.length_drop]
  omega

/-- Whether a byte is a UTF-8 continuation byte (10xxxxxx). -/
def isContByte (b : Nat) : Bool := 0x80 <= b && b < 0xc0

/-- Strict UTF-8 decoding, run as a byte-at-a-time automaton: `need` is the
number of continuation bytes still expected, `val` the partial code point,
`minv` the smallest code point the current sequence is allowed to produce
(rejecting overlong encodings).  This is the semantics of Python's
bytes.decode with the utf-8 codec: stray continuation bytes, overlong
encodings, surrogates, code points above U+10FFFF and truncated sequences
are all errors (`none` where Python raises UnicodeDecodeError). -/
def utf8Run : List Nat → Nat → Nat → Nat → Option (List Nat)
  | [], need, _, _ => if need = 0 then some [] else none
  | b :: rest, need, val, minv =>
    if need = 0 then
      if b < 0x80 then (utf8Run rest 0 0 0).map (fun cs => b :: cs)
      else if b < 0xc2 then none
      else if b < 0xe0 then utf8Run rest 1 (b - 0xc0) 0x80
      else if b < 0xf0 then utf8Run rest 2 (b - 0xe0) 0x800
      else if b < 0xf5 then utf8Run rest 3 (b - 0xf0) 0x10000
      else none
    else
      if isContByte b then
        if need = 1 then
          if val * 0x40 + (b - 0x80) < minv then none
          else if 0xd800 ≤ val * 0x40 + (b - 0x80) && val * 0x40 + (b - 0x80) < 0xe000 then none
          else if 0x10FFFF < val * 0x40 + (b - 0x80) then none
          else (utf8Run rest 0 0 0).map (fun cs => (val * 0x40 + (b - 0x80)) :: cs)
        else utf8Run rest (need - 1) (val * 0x40 + (b - 0x80)) minv
      else none

/-- Python bytes.decode on a whole byte string: the automaton started in
its initial state. -/
def utf8Decode (bs : List Nat) : Option (List Nat) := utf8Run bs 0 0 0

/-- A Unicode scalar value: in range and not a surrogate. -/
def isScalarCp (c : Nat) : Bool := c < 0x110000 && (c < 0xd800 || 0xe000 ≤ c)

theorem utf8Run_scalars : ∀ (bs : List Nat) (need val minv : Nat) (cs : List Nat),
    utf8Run bs need val minv = some cs → cs.all isScalarCp = true
  | [], need, val, minv, cs, h => by
      unfold utf8Run at h
      split at h
      · cases h; rfl
      · exact absurd h (by simp)
  | b :: rest, need, val, minv, cs, h => by
      unfold utf8Run at h
      split at h
      · split at h
        · rcases ho : utf8Run rest 0 0 0 with _ | cs'
          · rw [ho] at h; exact absurd h (by simp)
          · rw [ho] at h
            simp only [Option.map_some', Option.some.injEq] at h
            subst h
            have ih := utf8Run_scalars rest 0 0 0 cs' ho
            simp only [List.all_cons, Bool.and_eq_true]
            refine ⟨?_, ih⟩
            simp only [isScalarCp, Bool.and_eq_true, Bool.or_eq_true, decide_eq_true_eq]
            omega
        · split at h
          · exact absurd h (by simp)
          · split at h
            · exact utf8Run_scalars rest 1 (b - 0xc0) 0x80 cs h
            · split at h
              · exact utf8Run_scalars rest 2 (b - 0xe0) 0x800 cs h
              · split at h
                · exact utf8Run_scalars rest 3 (b - 0xf0) 0x10000 cs h
                · exact absurd h (by simp)
      · split at h
        · split at h
          · split at h
            · exact absurd h (by simp)
            · split at h
              · exact absurd h (by simp)
              · split at h
                · exact absurd h (by simp)
                · rcases ho : utf8Run rest 0 0 0 with _ | cs'
                  · rw [ho] at h; exact absurd h (by simp)
                  · rw [ho] at h
                    simp only [Option.map_some', Option.some.injEq] at h
                    subst h
                    have ih := utf8Run_scalars rest 0 0 0 cs' ho
                    rename_i hmin hsurr hhigh
                    simp only [Bool.and_eq_true, decide_eq_true_eq, not_and, not_lt] at hsurr
                    simp only [List.all_cons, Bool.and_eq_true]
                    refine ⟨?_, ih⟩
                    simp only [isScalarCp, Bool.and_eq_true, Bool.or_eq_true, decide_eq_true_eq]
                    omega
          · exact utf8Run_scalars rest (need - 1) (val * 0x40 + (b - 0x80)) minv cs h
        · exact absurd h (by simp)

theorem utf8Decode_scalars {bs cs : List Nat} (h : utf8Decode bs = some cs) :
    cs.all isScalarCp = true := utf8Run_scalars bs 0 0 0 cs h

/-- Values that can appear in an event's dump mapping: Python ints,
booleans, text strings (lists of code points), raw byte strings, and
nested mappings (Python dicts as insertion-ordered association lists). -/
inductive Value : Type where
  | vInt (n : Nat)
  | vBool (b : Bool)
  | vStr (cs : List Nat)
  | vBytes (bs : List Nat)
  | vMap (entries : List (String × Value))
deriving Repr

/-- Python dict item assignment on an insertion-ordered association list:
an existing key keeps its position and gets the new value, a new key is
appended at the end. -/
def assocSet (k : String) (v : Value) : List (String × Value) → List (String × Value)
  | [] => [(k, v)]
  | (k', v') :: rest => if k' = k then (k, v) :: rest else (k', v') :: assocSet k v rest

/-- Python dict.update: item assignment for each entry of the second dict
in order. -/
def assocUpdate (base : List (String × Value)) (h : List (String × Value)) :
    List (String × Value) :=
  h.foldl (fun b kv => assocSet kv.1 kv.2 b) base

/-- The per-value step of `iter_bytes_to_string` on a non-dict value:
Python attempts bytes.decode on it; a byte string that decodes becomes a
text string, and any exception (TypeError on non-bytes values,
UnicodeDecodeError on undecodable bytes) is swallowed, leaving the value
unchanged. -/
def tryBytesToString (v : Value) : Value :=
  match v with
  | .vBytes bs =>
    match utf8Decode bs with
    | some cs => .vStr cs
    | none => .vBytes bs
  | v => v

/-- `iter_bytes_to_string` from the source: walks a dict, converting each
decodable byte-string value to text in place, recursing into dict values;
exceptions from the conversion attempt are swallowed and the entry is left
unchanged. -/
def iter_bytes_to_string : List (String × Value) → List (String × Value)
  | [] => []
  | (k, .vMap m) :: rest => (k, .vMap (iter_bytes_to_string m)) :: iter_bytes_to_string rest
  | (k, v) :: rest => (k, tryBytesToString v) :: iter_bytes_to_string rest

/-- The code points of a Lean string literal, used for the Python string
constants appearing in the source. -/
def strCodes (s : String) : List Nat := s.data.map Char.toNat

mutual

/-- Dump-output well-formedness for one value (spec §6): an unsigned
64-bit integer, a boolean flag, UTF-8 text whose code points are Unicode
scalars, or a nested mapping of the same shape; raw byte strings are
excluded. -/
def valueOk : Value → Bool
  | .vInt n => n < 2 ^ 64
  | .vBool _ => true
  | .vStr cs => cs.all isScalarCp
  | .vBytes _ => false
  | .vMap m => entriesOk m

/-- Dump-output well-formedness for every value of a mapping. -/
def entriesOk : List (String × Value) → Bool
  | [] => true
  | (_, v) :: rest => valueOk v && entriesOk rest

end

/-- One lowercase hexadecimal digit, as produced by Python's "{0:02x}"
format (and its decimal digits, for arguments below 10). -/
def hexDigitChar (n : Nat) : Char :=
  if n < 10 then Char.ofNat (48 + n) else Char.ofNat (87 + n)

/-- The two lowercase hex digits of one byte, Python "{0:02x}".format(b)
for b < 256. -/
def byteHexChars (b : Nat) : List Char :=
  [hexDigitChar (b / 16), hexDigitChar (b % 16)]

/-- Decimal digit accumulator for Python's "%d" formatting.  The fuel
argument only forces termination; `decChars` supplies enough fuel that it
is never exhausted. -/
def decCharsAux : Nat → Nat → List Char → List Char
  | 0, _, acc => acc
  | fuel + 1, n, acc =>
    if n < 10 then hexDigitChar n :: acc
    else decCharsAux fuel (n / 10) (hexDigitChar (n % 10) :: acc)

/-- The decimal digits of a natural number, Python "%d" % n. -/
def decChars (n : Nat) : List Char := decCharsAux (n + 1) n []

/-- The GTID string built by GtidEvent.gtid: the "%s%s%s%s-%s%s-%s%s-%s%s-
%s%s%s%s%s%s" format applied to the two-hex-digit renderings of the 16 sid
bytes, then ":%d" with the transaction number.  The format requires
exactly 16 bytes; the decoder always supplies 16. -/
def gtidChars (sid : List Nat) (gno : Nat) : List Char :=
  (match sid with
   | [s0, s1, s2, s3, s4, s5, s6, s7, s8, s9, s10, s11, s12, s13, s14, s15] =>
     byteHexChars s0 ++ byteHexChars s1 ++ byteHexChars s2 ++ byteHexChars s3 ++ ['-'] ++
     byteHexChars s4 ++ byteHexChars s5 ++ ['-'] ++
     byteHexChars s6 ++ byteHexChars s7 ++ ['-'] ++
     byteHexChars s8 ++ byteHexChars s9 ++ ['-'] ++
     byteHexChars s10 ++ byteHexChars s11 ++ byteHexChars s12 ++
     byteHexChars s13 ++ byteHexChars s14 ++ byteHexChars s15
   | _ => []) ++ [':'] ++ decChars gno

/-- Schema names carried by the `only_schemas` keyword argument. -/
abbrev Schemas := List String

/-- The type-specific fields of each decoded event variant.  `rotate`
additionally keeps the raw name bytes read from the packet next to their
decoded text, and `xid`/`query` keep the `only_schemas` value their
constructors store. -/
inductive EventData : Type where
  | gtid (commit_flag : Bool) (sid : List Nat) (gno : Nat)
  | rotate (position : Nat) (next_binlog_bytes : List Nat) (next_binlog : List Nat)
  | formatDescription
  | stop
  | xid (only_schemas : Schemas) (xid : Nat)
  | query (only_schemas : Schemas) (slave_proxy_id : Nat) (execution_time : Nat)
      (schema_length : Nat) (error_code : Nat) (status_vars_length : Nat)
      (status_vars : List Nat) (schema : List Nat) (query : List Nat)
  | notImplemented
deriving Repr

/-- The Python class name of a variant, `self.__class__.__name__`. -/
def className : EventData → String
  | .gtid .. => "GtidEvent"
  | .rotate .. => "RotateEvent"
  | .formatDescription => "FormatDescriptionEvent"
  | .stop => "StopEvent"
  | .xid .. => "XidEvent"
  | .query .. => "QueryEvent"
  | .notImplemented => "NotImplementedEvent"

/-- A decoded event: the envelope fields recorded by BinLogEvent.__init__
(the table-map and control-connection references are opaque external
collaborators and are not modelled), the variant fields, the retained
packet reference, and the two mutable dicts used by dump
(`hashes` = self.hashes from the base class, `privHashes` = the
name-mangled per-variant self.__hashes, empty for variants without one). -/
structure Event : Type where
  packet : Packet
  event_type : Nat
  timestamp : Nat
  event_size : Nat
  log_pos : Nat
  data : EventData
  hashes : List (String × Value)
  privHashes : List (String × Value)

/-- The envelope recording done by BinLogEvent.__init__ (which itself
reads nothing from the packet), applied once the variant has consumed its
payload: `event_type`, `timestamp`, `log_pos` are taken from the packet's
own fields, which payload reads never change. -/
def mkEvent (p : Packet) (event_size : Nat) (d : EventData) : Event :=
  { packet := p, event_type := p.event_type, timestamp := p.timestamp,
    event_size := event_size, log_pos := p.log_pos, data := d,
    hashes := [], privHashes := [] }

/-- GtidEvent.__init__: 1-byte commit flag (true iff the byte equals 1),
16 raw sid bytes, 8-byte little-endian gno. -/
def decodeGtid (p : Packet) (event_size : Nat) (_only_schemas : Option Schemas) :
    Except DecodeError Event :=
  match p.read 1 with
  | .error e => .error e
  | .ok (cb, p1) =>
  match p1.read 16 with
  | .error e => .error e
  | .ok (sid, p2) =>
  match p2.read 8 with
  | .error e => .error e
  | .ok (gb, p3) =>
    .ok (mkEvent p3 event_size (.gtid (byte2int cb == 1) sid (leNat gb)))

/-- RotateEvent.__init__: 8-byte little-endian position, then
`event_size - 8` bytes of next-binlog file name, decoded as text. -/
def decodeRotate (p : Packet) (event_size : Nat) (_only_schemas : Option Schemas) :
    Except DecodeError Event :=
  match p.read 8 with
  | .error e => .error e
  | .ok (posBytes, p1) =>
  match p1.read ((event_size : Int) - 8) with
  | .error e => .error e
  | .ok (nameBytes, p2) =>
  match utf8Decode nameBytes with
  | none => .error .textDecodeFailure
  | some nm => .ok (mkEvent p2 event_size (.rotate (leNat posBytes) nameBytes nm))

/-- FormatDescriptionEvent: no payload fields beyond the envelope. -/
def decodeFormatDescription (p : Packet) (event_size : Nat)
    (_only_schemas : Option Schemas) : Except DecodeError Event :=
  .ok (mkEvent p event_size .formatDescription)

/-- StopEvent: no payload fields beyond the envelope. -/
def decodeStop (p : Packet) (event_size : Nat) (_only_schemas : Option Schemas) :
    Except DecodeError Event :=
  .ok (mkEvent p event_size .stop)

/-- XidEvent.__init__: looks up kwargs["only_schemas"] (raising KeyError
when absent) before reading the 8-byte little-endian transaction id. -/
def decodeXid (p : Packet) (event_size : Nat) (only_schemas : Option Schemas) :
    Except DecodeError Event :=
  match only_schemas with
  | none => .error .keyError
  | some os =>
  match p.read 8 with
  | .error e => .error e
  | .ok (xb, p1) => .ok (mkEvent p1 event_size (.xid os (leNat xb)))

/-- QueryEvent.__init__: looks up kwargs["only_schemas"] (raising KeyError
when absent), reads the fixed 13-byte post-header (4+4+1+2+2), the status
variables, the schema, one padding byte, and then
`event_size - 13 - status_vars_length - schema_length - 1` bytes of query
text decoded as UTF-8. -/
def decodeQuery (p : Packet) (event_size : Nat) (only_schemas : Option Schemas) :
    Except DecodeError Event :=
  match only_schemas with
  | none => .error .keyError
  | some os =>
  match p.read_uint32 with
  | .error e => .error e
  | .ok (slave_proxy_id, p1) =>
  match p1.read_uint32 with
  | .error e => .error e
  | .ok (execution_time, p2) =>
  match p2.read 1 with
  | .error e => .error e
  | .ok (slb, p3) =>
  match p3.read_uint16 with
  | .error e => .error e
  | .ok (error_code, p4) =>
  match p4.read_uint16 with
  | .error e => .error e
  | .ok (status_vars_length, p5) =>
  match p5.read (status_vars_length : Int) with
  | .error e => .error e
  | .ok (status_vars, p6) =>
  match p6.read (byte2int slb : Int) with
  | .error e => .error e
  | .ok (schema, p7) =>
  match p7.advance 1 with
  | .error e => .error e
  | .ok p8 =>
  match p8.read ((event_size : Int) - 13 - (status_vars_length : Int) -
      (byte2int slb : Int) - 1) with
  | .error e => .error e
  | .ok (qb, p9) =>
  match utf8Decode qb with
  | none => .error .textDecodeFailure
  | some q =>
    .ok (mkEvent p9 event_size (.query os slave_proxy_id execution_time
      (byte2int slb) error_code status_vars_length status_vars schema q))

/-- NotImplementedEvent.__init__: skips exactly `event_size` bytes without
interpreting them. -/
def decodeNotImplemented (p : Packet) (event_size : Nat)
    (_only_schemas : Option Schemas) : Except DecodeError Event :=
  match p.advance (event_size : Int) with
  | .error e => .error e
  | .ok p1 => .ok (mkEvent p1 event_size .notImplemented)

/-- The event-type codes the dispatcher resolves to a specific decoder. -/
def knownEventCodes : List Nat := [2, 3, 4, 15, 16, 33]

/-- Modelled from the spec: the dispatcher (§4.2) is not part of the given
source slice.  It maps the packet's event-type code to the decoder variant
(the standard MySQL binlog type codes of the variants named in §4:
query 2, stop 3, rotate 4, format-description 15, xid 16, gtid 33) and
resolves every other code to the NotImplemented catch-all. -/
def decodeEvent (p : Packet) (event_size : Nat) (only_schemas : Option Schemas) :
    Except DecodeError Event :=
  if p.event_type = 2 then decodeQuery p event_size only_schemas
  else if p.event_type = 3 then decodeStop p event_size only_schemas
  else if p.event_type = 4 then decodeRotate p event_size only_schemas
  else if p.event_type = 15 then decodeFormatDescription p event_size only_schemas
  else if p.event_type = 16 then decodeXid p event_size only_schemas
  else if p.event_type = 33 then decodeGtid p event_size only_schemas
  else decodeNotImplemented p event_size only_schemas

/-- The overridable _dump hook: writes the variant's extra fields into its
private dict and returns it; the base implementation returns None.
QueryEvent._dump applies bytes.decode to the raw schema bytes, which
raises on undecodable input. -/
def eventPrivDump (d : EventData) (ph : List (String × Value)) :
    Except DecodeError (Option (List (String × Value))) :=
  match d with
  | .gtid cf sid gno =>
    .ok (some (assocSet "gtid" (.vStr ((gtidChars sid gno).map Char.toNat))
      (assocSet "commit_flag" (.vBool cf) ph)))
  | .xid _ x => .ok (some (assocSet "xid" (.vInt x) ph))
  | .query _ _ et _ _ _ _ sch q =>
    match utf8Decode sch with
    | none => .error .textDecodeFailure
    | some s =>
      .ok (some (assocSet "query" (.vStr q)
        (assocSet "execution_time" (.vInt et)
          (assocSet "schema" (.vStr s) ph))))
  | _ => .ok none

/-- BinLogEvent.dump, with RotateEvent's full override: the base version
writes the envelope fields into self.hashes, merges the variant's _dump
result when it is truthy, and normalizes the dict with
iter_bytes_to_string; RotateEvent.dump instead builds its own private
dict with only class, position, next_binlog and timestamp. -/
def Event.dump (e : Event) : Except DecodeError (List (String × Value) × Event) :=
  match e.data with
  | .rotate pos _ nm =>
    let ph := assocSet "timestamp" (.vInt e.timestamp)
      (assocSet "next_binlog" (.vStr nm)
        (assocSet "position" (.vInt pos)
          (assocSet "class" (.vStr (strCodes "RotateEvent")) e.privHashes)))
    .ok (ph, { e with privHashes := ph })
  | _ =>
    let hs := assocSet "flags" (.vInt e.packet.flags)
      (assocSet "read_bytes" (.vInt e.packet.read_bytes)
        (assocSet "event_size" (.vInt e.event_size)
          (assocSet "log_pos" (.vInt e.packet.log_pos)
            (assocSet "timestamp" (.vInt e.timestamp)
              (assocSet "class" (.vStr (strCodes (className e.data))) e.hashes)))))
    match eventPrivDump e.data e.privHashes with
    | .error err => .error err
    | .ok none =>
      let hs2 := iter_bytes_to_string hs
      .ok (hs2, { e with hashes := hs2 })
    | .ok (some ph) =>
      if ph.isEmpty then
        let hs2 := iter_bytes_to_string hs
        .ok (hs2, { e with hashes := hs2, privHashes := ph })
      else
        let hs2 := iter_bytes_to_string (assocUpdate hs ph)
        .ok (hs2, { e with hashes := hs2, privHashes := ph })

/-- C3: for every RotateEvent, decoding reads an 8-byte little-endian
unsigned position and then exactly `event_size - 8` bytes as the next
binlog file name decoded as text, so 8 + len(next_binlog_bytes) equals
event_size for every decoded RotateEvent. -/
theorem rotate_layout (p : Packet) (es : Nat) (os : Option Schemas) (ev : Event)
    (h : decodeRotate p es os = .ok ev) :
    ∃ bs nm, ev.data = .rotate (leNat ((p.data.drop p.position).take 8)) bs nm ∧
      8 ≤ es ∧ 8 + bs.length = es ∧
      bs = (p.data.drop (p.position + 8)).take (es - 8) ∧
      utf8Decode bs = some nm := by
  unfold decodeRotate at h
  split at h
  · exact absurd h (by simp)
  · rename_i posBytes p1 hr1
    split at h
    · exact absurd h (by simp)
    · rename_i nameBytes p2 hr2
      split at h
      · exact absurd h (by simp)
      · rename_i nm hnm
        obtain ⟨hn1, hle1, hbs1, hp1⟩ := Packet.read_ok hr1
        have hlen2 := Packet.read_ok_length hr2
        obtain ⟨hn2, hle2, hbs2, hp2⟩ := Packet.read_ok hr2
        subst hp1
        simp only [Int.toNat_ofNat] at hbs2 hle2 hlen2 hbs1
        refine ⟨nameBytes, nm, ?_, ?_, ?_, ?_, hnm⟩
        · cases h; simp [mkEvent, hbs1]
        · omega
        · omega
        · rw [hbs2]
          congr 1
          omega

/-- Concrete rotate packet: position 4 followed by the name
mysql-bin.000002, event size 24 (spec end-to-end scenario 2). -/
def rotW : Packet :=
  { data := [4, 0, 0, 0, 0, 0, 0, 0] ++ strCodes "mysql-bin.000002",
    position := 0, read_bytes := 0, event_type := 4, timestamp := 100,
    log_pos := 7, flags := 1 }

theorem rotate_layout_witness :
    ∃ ev, decodeRotate rotW 24 none = .ok ev ∧
      ∃ bs nm, ev.data = .rotate (leNat ((rotW.data.drop rotW.position).take 8)) bs nm ∧
        8 ≤ 24 ∧ 8 + bs.length = 24 ∧
        bs = (rotW.data.drop (rotW.position + 8)).take (24 - 8) ∧
        utf8Decode bs = some nm :=
  ⟨_, rfl, rotate_layout rotW 24 none _ rfl⟩

/-- Forgetting the stored only_schemas value of a variant, for stating
that the value has no effect on any other decoded field. -/
def EventData.eraseSchemas : EventData → EventData
  | .xid _ x => .xid [] x
  | .query _ spid et sl ec svl sv sch q => .query [] spid et sl ec svl sv sch q
  | d => d

/-- Forgetting the stored only_schemas value of an event. -/
def Event.eraseSchemas (e : Event) : Event := { e with data := e.data.eraseSchemas }

/-- C9: constructing an XidEvent (and likewise a QueryEvent) requires the
caller to supply only_schemas: without it construction fails with KeyError
before any payload field is read (for every packet, even one no read
could succeed on), and when it is supplied its value has no effect on the
other decoded fields. -/
theorem only_schemas_required_and_inert :
    (∀ p es, decodeXid p es none = .error .keyError) ∧
    (∀ p es, decodeQuery p es none = .error .keyError) ∧
    (∀ p es v1 v2, (decodeXid p es (some v1)).map Event.eraseSchemas =
      (decodeXid p es (some v2)).map Event.eraseSchemas) ∧
    (∀ p es v1 v2, (decodeQuery p es (some v1)).map Event.eraseSchemas =
      (decodeQuery p es (some v2)).map Event.eraseSchemas) := by
  refine ⟨fun p es => rfl, fun p es => rfl, ?_, ?_⟩
  · intro p es v1 v2
    unfold decodeXid
    rcases hr : p.read 8 with e | ⟨xb, p1⟩ <;>
      simp [Except.map, Event.eraseSchemas, EventData.eraseSchemas, mkEvent]
  · intro p es v1 v2
    unfold decodeQuery
    rcases h1 : p.read_uint32 with e | ⟨spid, p1⟩ <;> simp only [Except.map]
    rcases h2 : p1.read_uint32 with e | ⟨et, p2⟩ <;> simp only [Except.map]
    rcases h3 : p2.read 1 with e | ⟨slb, p3⟩ <;> simp only [Except.map]
    rcases h4 : p3.read_uint16 with e | ⟨ec, p4⟩ <;> simp only [Except.map]
    rcases h5 : p4.read_uint16 with e | ⟨svl, p5⟩ <;> simp only [Except.map]
    rcases h6 : p5.read (svl : Int) with e | ⟨sv, p6⟩ <;> simp only [Except.map]
    rcases h7 : p6.read (byte2int slb : Int) with e | ⟨sch, p7⟩ <;> simp only [Except.map]
    rcases h8 : p7.advance 1 with e | p8 <;> simp only [Except.map]
    rcases h9 : p8.read ((es : Int) - 13 - (svl : Int) - (byte2int slb : Int) - 1) with
      e | ⟨qb, p9⟩ <;> simp only [Except.map]
    rcases h10 : utf8Decode qb with _ | q <;>
      simp [Except.map, Event.eraseSchemas, EventData.eraseSchemas, mkEvent]

/-- C7: an unrecognized type code resolves to NotImplementedEvent, whose
decoding consumes exactly event_size bytes without interpreting them (the
buffer is untouched), produces no type-specific fields, and whose dump
contains only the six shared envelope keys. -/
theorem notimplemented_consumes_exactly (p : Packet) (es : Nat) (os : Option Schemas)
    (hcode : p.event_type ∉ knownEventCodes)
    (hlen : p.position + es ≤ p.data.length) :
    ∃ ev, decodeEvent p es os = .ok ev ∧
      ev.data = .notImplemented ∧
      ev.packet.position = p.position + es ∧
      ev.packet.read_bytes = p.read_bytes + es ∧
      ev.packet.data = p.data ∧
      ∃ d e', ev.dump = .ok (d, e') ∧
        d.map Prod.fst = ["class", "timestamp", "log_pos", "event_size",
          "read_bytes", "flags"] := by
  simp only [knownEventCodes, List.mem_cons, List.mem_singleton, not_or] at hcode
  obtain ⟨h2, h3, h4, h15, h16, h33⟩ := hcode
  rw [decodeEvent]
  simp only [h2, h3, h4, h15, h16, h33, if_false]
  rw [decodeNotImplemented, Packet.advance, Packet.read]
  have hne : ¬((es : Int) < 0) := by omega
  have htn : (es : Int).toNat = es := by omega
  rw [if_neg hne, htn, if_pos hlen]
  refine ⟨_, rfl, rfl, rfl, rfl, rfl, ?_⟩
  refine ⟨_, _, rfl, ?_⟩
  simp [Event.dump, mkEvent, eventPrivDump, assocSet, iter_bytes_to_string,
    tryBytesToString]

/-- Concrete packet with the unrecognized type code 99 and ten payload
bytes (spec end-to-end scenario 5). -/
def niW : Packet :=
  { data := [9, 8, 7, 6, 5, 4, 3, 2, 1, 0], position := 0, read_bytes := 0,
    event_type := 99, timestamp := 100, log_pos := 7, flags := 1 }

theorem notimplemented_consumes_exactly_witness :
    niW.event_type ∉ knownEventCodes ∧ niW.position + 10 ≤ niW.data.length ∧
    ∃ ev, decodeEvent niW 10 none = .ok ev ∧
      ev.data = .notImplemented ∧
      ev.packet.position = niW.position + 10 ∧
      ev.packet.read_bytes = niW.read_bytes + 10 ∧
      ev.packet.data = niW.data ∧
      ∃ d e', ev.dump = .ok (d, e') ∧
        d.map Prod.fst = ["class", "timestamp", "log_pos", "event_size",
          "read_bytes", "flags"] :=
  ⟨by decide, by decide,
    notimplemented_consumes_exactly niW 10 none (by decide) (by decide)⟩

/-- C8: RotateEvent's dump consists of exactly the class tag, position,
next_binlog and timestamp; the generic envelope fields read_bytes, flags,
log_pos and event_size are absent. -/
theorem rotate_dump_shape (e : Event) (pos : Nat) (bs nm : List Nat)
    (hdata : e.data = .rotate pos bs nm) (hpriv : e.privHashes = []) :
    ∃ d e', e.dump = .ok (d, e') ∧
      d.map Prod.fst = ["class", "position", "next_binlog", "timestamp"] ∧
      d.lookup "class" = some (.vStr (strCodes "RotateEvent")) ∧
      d.lookup "position" = some (.vInt pos) ∧
      d.lookup "next_binlog" = some (.vStr nm) ∧
      d.lookup "timestamp" = some (.vInt e.timestamp) ∧
      d.lookup "read_bytes" = none ∧ d.lookup "flags" = none ∧
      d.lookup "log_pos" = none ∧ d.lookup "event_size" = none := by
  unfold Event.dump
  rw [hdata, hpriv]
  refine ⟨_, _, rfl, ?_, ?_, ?_, ?_, ?_, ?_, ?_, ?_, ?_⟩ <;> simp [assocSet, List.lookup]

/-- Concrete rotate packet for the dump-shape witness. -/
def rotDumpW : Packet :=
  { data := [4, 0, 0, 0, 0, 0, 0, 0] ++ strCodes "mysql-bin.000002",
    position := 0, read_bytes := 0, event_type := 4, timestamp := 100,
    log_pos := 7, flags := 1 }

theorem rotate_dump_shape_witness :
    ∃ ev, decodeRotate rotDumpW 24 none = .ok ev ∧
      ∃ d e', ev.dump = .ok (d, e') ∧
        d.map Prod.fst = ["class", "position", "next_binlog", "timestamp"] ∧
        d.lookup "class" = some (.vStr (strCodes "RotateEvent")) ∧
        d.lookup "position" = some (.vInt 4) ∧
        d.lookup "next_binlog" = some (.vStr (strCodes "mysql-bin.000002")) ∧
        d.lookup "timestamp" = some (.vInt 100) ∧
        d.lookup "read_bytes" = none ∧ d.lookup "flags" = none ∧
        d.lookup "log_pos" = none ∧ d.lookup "event_size" = none :=
  ⟨_, rfl, rotate_dump_shape _ 4 (strCodes "mysql-bin.000002")
    (strCodes "mysql-bin.000002") rfl rfl⟩

/-- Whether a character is a lowercase hexadecimal digit, the character
class [0-9a-f] of the spec's GTID pattern. -/
def isHexLowerChar (c : Char) : Bool := ('0' ≤ c && c ≤ '9') || ('a' ≤ c && c ≤ 'f')

/-- Whether a character is a decimal digit, the character class [0-9]. -/
def isDigitChar (c : Char) : Bool := '0' ≤ c && c ≤ '9'

/-- Consume exactly n lowercase hex digits, the regex fragment
[0-9a-f]\x7bn\x7d. -/
def takeHex : Nat → List Char → Option (List Char)
  | 0, cs => some cs
  | _ + 1, [] => none
  | n + 1, c :: cs => if isHexLowerChar c then takeHex n cs else none

/-- Consume one expected literal character. -/
def expectChar (ch : Char) : List Char → Option (List Char)
  | [] => none
  | c :: cs => if c = ch then some cs else none

/-- Whether a string matches the anchored pattern
^[0-9a-f]\x7b8\x7d-[0-9a-f]\x7b4\x7d-[0-9a-f]\x7b4\x7d-[0-9a-f]\x7b4\x7d-[0-9a-f]\x7b12\x7d:[0-9]+$
from the spec (section 8, first testable property). -/
def gtidPatternHolds (cs : List Char) : Bool :=
  match (((((((((takeHex 8 cs).bind (expectChar '-')).bind (takeHex 4)).bind
      (expectChar '-')).bind (takeHex 4)).bind (expectChar '-')).bind
      (takeHex 4)).bind (expectChar '-')).bind (takeHex 12)).bind
      (expectChar ':') with
  | some rest => !rest.isEmpty && rest.all isDigitChar
  | none => false

theorem hexDigitChar_isHex {n : Nat} (h : n < 16) :
    isHexLowerChar (hexDigitChar n) = true := by
  interval_cases n <;> decide

theorem hexDigitChar_isDigit {n : Nat} (h : n < 10) :
    isDigitChar (hexDigitChar n) = true := by
  interval_cases n <;> decide

theorem takeHex_cons_of_hex {c : Char} {cs : List Char} {n : Nat}
    (h : isHexLowerChar c = true) : takeHex (n + 1) (c :: cs) = takeHex n cs := by
  simp [takeHex, h]

theorem takeHex_byteHex {b : Nat} (hb : b < 256) (n : Nat) (cs : List Char) :
    takeHex (n + 2) (byteHexChars b ++ cs) = takeHex n cs := by
  simp only [byteHexChars, List.cons_append, List.nil_append]
  rw [takeHex_cons_of_hex (hexDigitChar_isHex (by omega)),
    takeHex_cons_of_hex (hexDigitChar_isHex (by omega))]

theorem decCharsAux_all_digits :
    ∀ (fuel n : Nat) (acc : List Char), n < fuel → acc.all isDigitChar = true →
      (decCharsAux fuel n acc).all isDigitChar = true
  | 0, n, acc, h, hacc => absurd h (by omega)
  | fuel + 1, n, acc, h, hacc => by
      unfold decCharsAux
      split
      · rename_i h10
        simp [List.all_cons, hexDigitChar_isDigit h10, hacc]
      · rename_i h10
        exact decCharsAux_all_digits fuel (n / 10) _ (by omega)
          (by simp [List.all_cons, hexDigitChar_isDigit (Nat.mod_lt n (by omega)), hacc])

theorem decCharsAux_length :
    ∀ (fuel n : Nat) (acc : List Char), n < fuel →
      acc.length < (decCharsAux fuel n acc).length
  | 0, n, acc, h => absurd h (by omega)
  | fuel + 1, n, acc, h => by
      unfold decCharsAux
      split
      · simp
      · rename_i h10
        have := decCharsAux_length fuel (n / 10) (hexDigitChar (n % 10) :: acc) (by omega)
        simp at this
        omega

theorem decChars_all_digits (n : Nat) : (decChars n).all isDigitChar = true :=
  decCharsAux_all_digits (n + 1) n [] (by omega) rfl

theorem decChars_not_isEmpty (n : Nat) : (decChars n).isEmpty = false := by
  have := decCharsAux_length (n + 1) n [] (by omega)
  rw [decChars]
  rcases hd : decCharsAux (n + 1) n [] with _ | ⟨c, cs⟩
  · rw [hd] at this; simp at this
  · rfl


theorem expectChar_same (ch : Char) (cs : List Char) :
    expectChar ch (ch :: cs) = some cs := by
  simp [expectChar]

theorem option_bind_some_arg {α β : Type} (a : α) (f : α → Option β) :
    (some a).bind f = f a := rfl

theorem gtidChars_pattern (sid : List Nat) (gno : Nat)
    (hlen : sid.length = 16) (hb : ∀ b ∈ sid, b < 256) :
    gtidPatternHolds (gtidChars sid gno) = true := by
  rcases sid with _ | ⟨s0, sid⟩; · simp at hlen
  rcases sid with _ | ⟨s1, sid⟩; · simp at hlen
  rcases sid with _ | ⟨s2, sid⟩; · simp at hlen
  rcases sid with _ | ⟨s3, sid⟩; · simp at hlen
  rcases sid with _ | ⟨s4, sid⟩; · simp at hlen
  rcases sid with _ | ⟨s5, sid⟩; · simp at hlen
  rcases sid with _ | ⟨s6, sid⟩; · simp at hlen
  rcases sid with _ | ⟨s7, sid⟩; · simp at hlen
  rcases sid with _ | ⟨s8, sid⟩; · simp at hlen
  rcases sid with _ | ⟨s9, sid⟩; · simp at hlen
  rcases sid with _ | ⟨s10, sid⟩; · simp at hlen
  rcases sid with _ | ⟨s11, sid⟩; · simp at hlen
  rcases sid with _ | ⟨s12, sid⟩; · simp at hlen
  rcases sid with _ | ⟨s13, sid⟩; · simp at hlen
  rcases sid with _ | ⟨s14, sid⟩; · simp at hlen
  rcases sid with _ | ⟨s15, sid⟩; · simp at hlen
  have hnil : sid = [] := by
    simp only [List.length_cons] at hlen
    exact List.length_eq_zero.mp (by omega)
  subst hnil
  simp only [List.mem_cons, List.not_mem_nil] at hb
  have h0 : s0 < 256 := hb s0 (by tauto)
  have h1 : s1 < 256 := hb s1 (by tauto)
  have h2 : s2 < 256 := hb s2 (by tauto)
  have h3 : s3 < 256 := hb s3 (by tauto)
  have h4 : s4 < 256 := hb s4 (by tauto)
  have h5 : s5 < 256 := hb s5 (by tauto)
  have h6 : s6 < 256 := hb s6 (by tauto)
  have h7 : s7 < 256 := hb s7 (by tauto)
  have h8 : s8 < 256 := hb s8 (by tauto)
  have h9 : s9 < 256 := hb s9 (by tauto)
  have h10 : s10 < 256 := hb s10 (by tauto)
  have h11 : s11 < 256 := hb s11 (by tauto)
  have h12 : s12 < 256 := hb s12 (by tauto)
  have h13 : s13 < 256 := hb s13 (by tauto)
  have h14 : s14 < 256 := hb s14 (by tauto)
  have h15 : s15 < 256 := hb s15 (by tauto)
  rw [gtidChars]
  simp only [List.append_assoc, List.cons_append, List.nil_append]
  rw [gtidPatternHolds]
  rw [takeHex_byteHex h0, takeHex_byteHex h1, takeHex_byteHex h2, takeHex_byteHex h3]
  rw [show takeHex 0 = some from rfl]
  simp only [option_bind_some_arg, expectChar_same]
  rw [takeHex_byteHex h4, takeHex_byteHex h5]
  rw [show takeHex 0 = some from rfl]
  simp only [option_bind_some_arg, expectChar_same]
  rw [takeHex_byteHex h6, takeHex_byteHex h7]
  rw [show takeHex 0 = some from rfl]
  simp only [option_bind_some_arg, expectChar_same]
  rw [takeHex_byteHex h8, takeHex_byteHex h9]
  rw [show takeHex 0 = some from rfl]
  simp only [option_bind_some_arg, expectChar_same]
  rw [takeHex_byteHex h10, takeHex_byteHex h11, takeHex_byteHex h12,
    takeHex_byteHex h13, takeHex_byteHex h14, takeHex_byteHex h15]
  rw [show takeHex 0 = some from rfl]
  simp only [option_bind_some_arg, expectChar_same]
  simp [decChars_all_digits, decChars_not_isEmpty]

/-- C2: for every decoded GtidEvent, the gtid string (16 sid bytes as two
lowercase hex digits each, grouped 8-4-4-4-12 with dashes, a colon and the
decimal gno) matches the anchored pattern
^[0-9a-f]\x7b8\x7d-[0-9a-f]\x7b4\x7d-[0-9a-f]\x7b4\x7d-[0-9a-f]\x7b4\x7d-[0-9a-f]\x7b12\x7d:[0-9]+$. -/
theorem gtid_matches_pattern (p : Packet) (es : Nat) (os : Option Schemas) (ev : Event)
    (hbytes : ∀ b ∈ p.data, b < 256)
    (hdec : decodeGtid p es os = .ok ev) (cf : Bool) (sid : List Nat) (gno : Nat)
    (hdata : ev.data = .gtid cf sid gno) :
    gtidPatternHolds (gtidChars sid gno) = true := by
  unfold decodeGtid at hdec
  split at hdec
  · exact absurd hdec (by simp)
  · rename_i cb p1 hr1
    split at hdec
    · exact absurd hdec (by simp)
    · rename_i sidRead p2 hr2
      split at hdec
      · exact absurd hdec (by simp)
      · rename_i gb p3 hr3
        have hlen := Packet.read_ok_length hr2
        obtain ⟨_, _, _, hp1⟩ := Packet.read_ok hr1
        subst hp1
        obtain ⟨_, _, hbs2, _⟩ := Packet.read_ok hr2
        simp only at hbs2
        cases hdec
        simp only [mkEvent] at hdata
        injection hdata with hcf hsid hgno
        subst hsid
        refine gtidChars_pattern sidRead gno ?_ ?_
        · rw [hlen]; rfl
        · intro b hbmem
          refine hbytes b ?_
          rw [hbs2] at hbmem
          exact List.mem_of_mem_drop (List.mem_of_mem_take hbmem)

/-- The sid bytes of 3e11fa47-71ca-11e1-9e33-c80aa9429562. -/
def sidW : List Nat :=
  [0x3e, 0x11, 0xfa, 0x47, 0x71, 0xca, 0x11, 0xe1,
   0x9e, 0x33, 0xc8, 0x0a, 0xa9, 0x42, 0x95, 0x62]

/-- Concrete gtid packet: commit flag 1, sid sidW, gno 23 (spec
end-to-end scenario 1). -/
def gtidW : Packet :=
  { data := [1] ++ sidW ++ [23, 0, 0, 0, 0, 0, 0, 0],
    position := 0, read_bytes := 0, event_type := 33, timestamp := 100,
    log_pos := 7, flags := 1 }

theorem gtid_matches_pattern_witness :
    (∀ b ∈ gtidW.data, b < 256) ∧
    ∃ ev, decodeGtid gtidW 25 none = .ok ev ∧
      ev.data = .gtid true sidW 23 ∧
      gtidPatternHolds (gtidChars sidW 23) = true :=
  ⟨by decide, _, rfl, rfl,
    gtid_matches_pattern gtidW 25 none _ (by decide) rfl true sidW 23 rfl⟩

/-- C10: iter_bytes_to_string never raises and returns the mapping it was
given with its keys, their order, and its length intact (the pure-function
rendering of mutating the dict in place and returning it): a byte value
that decodes becomes its text, every conversion exception (undecodable
bytes, or a TypeError on an int, bool or str value) is swallowed leaving
the value unchanged, and nested mappings are processed recursively.  In
this embedding exceptions are the `none`/`Except.error` results, so
totality of the function is the no-raise guarantee. -/
theorem iter_bytes_to_string_total_and_inplace (m : List (String × Value)) :
    (iter_bytes_to_string m).map Prod.fst = m.map Prod.fst ∧
    ∀ (i : Nat) (k : String) (v : Value), m[i]? = some (k, v) →
      ((∀ bs, v = Value.vBytes bs → utf8Decode bs = none →
          (iter_bytes_to_string m)[i]? = some (k, v)) ∧
       (∀ bs cs, v = Value.vBytes bs → utf8Decode bs = some cs →
          (iter_bytes_to_string m)[i]? = some (k, Value.vStr cs)) ∧
       (∀ n, v = Value.vInt n → (iter_bytes_to_string m)[i]? = some (k, v)) ∧
       (∀ b, v = Value.vBool b → (iter_bytes_to_string m)[i]? = some (k, v)) ∧
       (∀ cs, v = Value.vStr cs → (iter_bytes_to_string m)[i]? = some (k, v)) ∧
       (∀ sub, v = Value.vMap sub →
          (iter_bytes_to_string m)[i]? = some (k, Value.vMap (iter_bytes_to_string sub)))) := by
  induction m with
  | nil =>
    refine ⟨by simp [iter_bytes_to_string], ?_⟩
    intro i k v hm
    simp at hm
  | cons hd rest ih =>
    obtain ⟨k0, v0⟩ := hd
    constructor
    · cases v0 <;>
        simp only [iter_bytes_to_string, tryBytesToString, List.map_cons, ih.1]
    · intro i k v hm
      cases i with
      | zero =>
        simp only [List.getElem?_cons_zero, Option.some.injEq] at hm
        cases hm
        refine ⟨?_, ?_, ?_, ?_, ?_, ?_⟩
        · rintro bs rfl hnone
          simp [iter_bytes_to_string, tryBytesToString, hnone]
        · rintro bs cs rfl hsome
          simp [iter_bytes_to_string, tryBytesToString, hsome]
        · rintro n rfl
          simp [iter_bytes_to_string, tryBytesToString]
        · rintro b rfl
          simp [iter_bytes_to_string, tryBytesToString]
        · rintro cs rfl
          simp [iter_bytes_to_string, tryBytesToString]
        · rintro sub rfl
          simp [iter_bytes_to_string]
      | succ j =>
        simp only [List.getElem?_cons_succ] at hm
        have hrest := ih.2 j k v hm
        have hcons : ∀ w : Value,
            (iter_bytes_to_string ((k0, w) :: rest))[j + 1]? =
              (iter_bytes_to_string rest)[j]? := by
          intro w
          cases w <;>
            simp [iter_bytes_to_string, tryBytesToString, List.getElem?_cons_succ]
        refine ⟨?_, ?_, ?_, ?_, ?_, ?_⟩
        · rintro bs rfl hnone
          rw [hcons v0]
          exact hrest.1 bs rfl hnone
        · rintro bs cs rfl hsome
          rw [hcons v0]
          exact hrest.2.1 bs cs rfl hsome
        · rintro n rfl
          rw [hcons v0]
          exact hrest.2.2.1 n rfl
        · rintro b rfl
          rw [hcons v0]
          exact hrest.2.2.2.1 b rfl
        · rintro cs rfl
          rw [hcons v0]
          exact hrest.2.2.2.2.1 cs rfl
        · rintro sub rfl
          rw [hcons v0]
          exact hrest.2.2.2.2.2 sub rfl

/-- Concrete nested mapping exercising every branch of the witness:
undecodable bytes, decodable bytes inside a nested mapping, and an
integer. -/
def iterW : List (String × Value) :=
  [("a", Value.vBytes [0xff]),
   ("b", Value.vMap [("c", Value.vBytes [0x41])]),
   ("d", Value.vInt 3)]

theorem iter_bytes_to_string_total_and_inplace_witness :
    (iter_bytes_to_string iterW).map Prod.fst = iterW.map Prod.fst ∧
    (iter_bytes_to_string iterW)[0]? = some ("a", Value.vBytes [0xff]) ∧
    (iter_bytes_to_string iterW)[1]? =
      some ("b", Value.vMap (iter_bytes_to_string [("c", Value.vBytes [0x41])])) ∧
    (iter_bytes_to_string iterW)[2]? = some ("d", Value.vInt 3) :=
  ⟨(iter_bytes_to_string_total_and_inplace iterW).1,
   ((iter_bytes_to_string_total_and_inplace iterW).2 0 "a" (Value.vBytes [0xff])
      (by rfl)).1 [0xff] rfl (by rfl),
   ((iter_bytes_to_string_total_and_inplace iterW).2 1 "b"
      (Value.vMap [("c", Value.vBytes [0x41])]) (by rfl)).2.2.2.2.2
      [("c", Value.vBytes [0x41])] rfl,
   ((iter_bytes_to_string_total_and_inplace iterW).2 2 "d" (Value.vInt 3)
      (by rfl)).2.2.1 3 rfl⟩

theorem Packet.read_error {p : Packet} {n : Int} {e : DecodeError}
    (h : p.read n = .error e) : e = .malformedPayload := by
  unfold Packet.read at h
  split at h
  · cases h; rfl
  · split at h
    · exact absurd h (by simp)
    · cases h; rfl

theorem Packet.read_neg {p : Packet} {n : Int} (h : n < 0) :
    p.read n = .error .malformedPayload := by
  simp [Packet.read, h]

theorem Packet.advance_error {p : Packet} {n : Int} {e : DecodeError}
    (h : p.advance n = .error e) : e = .malformedPayload := by
  unfold Packet.advance at h
  split at h
  · exact absurd h (by simp)
  · rename_i e' he
    cases h
    exact Packet.read_error he

theorem Packet.read_uint32_error {p : Packet} {e : DecodeError}
    (h : p.read_uint32 = .error e) : e = .malformedPayload := by
  unfold Packet.read_uint32 at h
  split at h
  · exact absurd h (by simp)
  · rename_i e' he
    cases h
    exact Packet.read_error he

theorem Packet.read_uint16_error {p : Packet} {e : DecodeError}
    (h : p.read_uint16 = .error e) : e = .malformedPayload := by
  unfold Packet.read_uint16 at h
  split at h
  · exact absurd h (by simp)
  · rename_i e' he
    cases h
    exact Packet.read_error he

theorem Packet.read_uint32_ok {p : Packet} {v : Nat} {p' : Packet}
    (h : p.read_uint32 = .ok (v, p')) :
    v = leNat ((p.data.drop p.position).take 4) ∧
    p' = { p with position := p.position + 4, read_bytes := p.read_bytes + 4 } := by
  unfold Packet.read_uint32 at h
  split at h
  · rename_i bs q hr
    obtain ⟨_, _, hbs, hq⟩ := Packet.read_ok hr
    cases h
    constructor
    · rw [hbs]; rfl
    · rw [hq]; rfl
  · exact absurd h (by simp)

theorem Packet.read_uint16_ok {p : Packet} {v : Nat} {p' : Packet}
    (h : p.read_uint16 = .ok (v, p')) :
    v = leNat ((p.data.drop p.position).take 2) ∧
    p' = { p with position := p.position + 2, read_bytes := p.read_bytes + 2 } := by
  unfold Packet.read_uint16 at h
  split at h
  · rename_i bs q hr
    obtain ⟨_, _, hbs, hq⟩ := Packet.read_ok hr
    cases h
    constructor
    · rw [hbs]; rfl
    · rw [hq]; rfl
  · exact absurd h (by simp)

/-- The declared status-variable block length of a query payload: the
little-endian 16-bit value at offsets 11-12 of the payload. -/
def queryStatusVarsLen (p : Packet) : Nat :=
  leNat ((p.data.drop (p.position + 11)).take 2)

/-- The declared schema-name length of a query payload: the byte at
offset 8 of the payload. -/
def querySchemaLen (p : Packet) : Nat :=
  byte2int ((p.data.drop (p.position + 8)).take 1)

/-- C1: for every QueryEvent payload whose declared lengths are
inconsistent (13 + L_status + L_schema + 1 > event_size, so the computed
remaining query length is negative), decoding fails with MalformedPayload
rather than underflowing or reading out of bounds. -/
theorem query_malformed_fails (p : Packet) (es : Nat) (os : Schemas)
    (hlen : 13 + queryStatusVarsLen p + querySchemaLen p + 1 > es) :
    decodeQuery p es (some os) = .error .malformedPayload := by
  unfold decodeQuery
  split
  · rename_i hnone
    exact absurd hnone (by simp)
  · rename_i os' hos
    split
    · rename_i e h1; rw [Packet.read_uint32_error h1]
    · rename_i spid p1 h1
      obtain ⟨_, hp1⟩ := Packet.read_uint32_ok h1
      subst hp1
      split
      · rename_i e h2; rw [Packet.read_uint32_error h2]
      · rename_i et p2 h2
        obtain ⟨_, hp2⟩ := Packet.read_uint32_ok h2
        simp only at hp2
        subst hp2
        split
        · rename_i e h3; rw [Packet.read_error h3]
        · rename_i slb p3 h3
          obtain ⟨_, _, hslb, hp3⟩ := Packet.read_ok h3
          simp only at hslb hp3
          subst hp3
          split
          · rename_i e h4; rw [Packet.read_uint16_error h4]
          · rename_i ec p4 h4
            obtain ⟨_, hp4⟩ := Packet.read_uint16_ok h4
            simp only at hp4
            subst hp4
            split
            · rename_i e h5; rw [Packet.read_uint16_error h5]
            · rename_i svl p5 h5
              obtain ⟨hsvl, hp5⟩ := Packet.read_uint16_ok h5
              simp only at hsvl hp5
              subst hp5
              split
              · rename_i e h6; rw [Packet.read_error h6]
              · rename_i sv p6 h6
                obtain ⟨_, _, _, hp6⟩ := Packet.read_ok h6
                subst hp6
                split
                · rename_i e h7; rw [Packet.read_error h7]
                · rename_i sch p7 h7
                  obtain ⟨_, _, _, hp7⟩ := Packet.read_ok h7
                  subst hp7
                  split
                  · rename_i e h8; rw [Packet.advance_error h8]
                  · rename_i p8 h8
                    simp only [show Int.toNat 1 = 1 from rfl] at hsvl hslb
                    have hsvl2 : svl = queryStatusVarsLen p := by
                      rw [hsvl]
                      unfold queryStatusVarsLen
                      have harith : p.position + 4 + 4 + 1 + 2 = p.position + 11 := by
                        omega
                      rw [harith]
                    have hslb2 : byte2int slb = querySchemaLen p := by
                      rw [hslb]
                      unfold querySchemaLen
                      have harith : p.position + 4 + 4 = p.position + 8 := by omega
                      rw [harith]
                    have hneg : (es : Int) - 13 - (svl : Int) - (byte2int slb : Int) - 1 < 0 := by
                      omega
                    rw [Packet.read_neg hneg]

/-- Concrete query packet whose declared lengths are inconsistent: a
13-byte post-header declaring L_status = 0 and L_schema = 0 with
event_size 13, so the computed query length is 13 - 13 - 0 - 0 - 1 = -1. -/
def qmW : Packet :=
  { data := [0, 0, 0, 0, 0, 0, 0, 0, 0, 0, 0, 0, 0], position := 0,
    read_bytes := 0, event_type := 2, timestamp := 100, log_pos := 7,
    flags := 1 }

theorem query_malformed_fails_witness :
    13 + queryStatusVarsLen qmW + querySchemaLen qmW + 1 > 13 ∧
    decodeQuery qmW 13 (some []) = .error .malformedPayload :=
  ⟨by decide, query_malformed_fails qmW 13 [] (by decide)⟩

/-- C4 (amended): for every decoded event except RotateEvent (whose dump
method overrides the base one), the dump mapping includes the class tag,
timestamp, log_pos, event_size, read_bytes and flags, and merges in the
variant-specific fields produced by that variant's own field-extraction
step. -/
theorem dump_envelope_amended (e : Event)
    (h0 : e.hashes = []) (h1 : e.privHashes = [])
    (hnr : ∀ pos bs nm, e.data ≠ .rotate pos bs nm)
    (d : List (String × Value)) (e' : Event)
    (hd : e.dump = .ok (d, e')) :
    d.lookup "class" = some (.vStr (strCodes (className e.data))) ∧
    d.lookup "timestamp" = some (.vInt e.timestamp) ∧
    d.lookup "log_pos" = some (.vInt e.packet.log_pos) ∧
    d.lookup "event_size" = some (.vInt e.event_size) ∧
    d.lookup "read_bytes" = some (.vInt e.packet.read_bytes) ∧
    d.lookup "flags" = some (.vInt e.packet.flags) ∧
    (match e.data with
     | .gtid cf sid gno =>
        d.lookup "commit_flag" = some (.vBool cf) ∧
        d.lookup "gtid" = some (.vStr ((gtidChars sid gno).map Char.toNat))
     | .xid _ x => d.lookup "xid" = some (.vInt x)
     | .query _ _ et _ _ _ _ sch q =>
        d.lookup "execution_time" = some (.vInt et) ∧
        d.lookup "query" = some (.vStr q) ∧
        ∃ s, utf8Decode sch = some s ∧ d.lookup "schema" = some (.vStr s)
     | _ => True) := by
  rcases hdata : e.data with
    ⟨cf, sid, gno⟩ | ⟨pos, bs, nm⟩ | _ | _ | ⟨os, x⟩ |
    ⟨os, spid, et, sl, ec, svl, sv, sch, q⟩ | _ <;>
    unfold Event.dump at hd <;> rw [hdata] at hd <;> rw [h0, h1] at hd <;>
    simp only [className]
  · -- gtid
    simp only [eventPrivDump, assocSet, assocUpdate, List.foldl,
      iter_bytes_to_string, tryBytesToString, List.isEmpty] at hd
    cases hd
    simp [List.lookup, iter_bytes_to_string, tryBytesToString, className]
  · exact absurd hdata (hnr pos bs nm)
  · -- formatDescription
    simp only [eventPrivDump, assocSet, iter_bytes_to_string, tryBytesToString] at hd
    cases hd
    simp [List.lookup, iter_bytes_to_string, tryBytesToString, className]
  · -- stop
    simp only [eventPrivDump, assocSet, iter_bytes_to_string, tryBytesToString] at hd
    cases hd
    simp [List.lookup, iter_bytes_to_string, tryBytesToString, className]
  · -- xid
    simp only [eventPrivDump, assocSet, assocUpdate, List.foldl,
      iter_bytes_to_string, tryBytesToString, List.isEmpty] at hd
    cases hd
    simp [List.lookup, iter_bytes_to_string, tryBytesToString, className]
  · -- query
    rcases hsch : utf8Decode sch with _ | s
    · rw [eventPrivDump.eq_def] at hd
      simp only [hsch] at hd
      exact absurd hd (by simp)
    · rw [eventPrivDump.eq_def] at hd
      simp only [hsch] at hd
      simp only [assocSet, assocUpdate, List.foldl, iter_bytes_to_string,
        tryBytesToString, List.isEmpty] at hd
      cases hd
      refine ⟨?_, ?_, ?_, ?_, ?_, ?_, ?_, ?_, s, rfl, ?_⟩ <;>
        simp [List.lookup, iter_bytes_to_string, tryBytesToString, className]
  · -- notImplemented
    simp only [eventPrivDump, assocSet, iter_bytes_to_string, tryBytesToString] at hd
    cases hd
    simp [List.lookup, iter_bytes_to_string, tryBytesToString, className]

/-- Concrete rotate packet refuting the unamended C4: its decoded event's
dump has only the four rotate keys, with no read_bytes or log_pos. -/
def c4W : Packet :=
  { data := [4, 0, 0, 0, 0, 0, 0, 0] ++ strCodes "mysql-bin.000002",
    position := 0, read_bytes := 0, event_type := 4, timestamp := 100,
    log_pos := 7, flags := 1 }

/-- C4 counterexample: a RotateEvent decodes successfully, its dump
succeeds, yet the dump's keys are only class, position, next_binlog and
timestamp, and looking up read_bytes (or log_pos, event_size, flags)
yields nothing — so the dump of a decoded event does not always include
the full envelope. -/
theorem dump_envelope_counterexample :
    (decodeEvent c4W 24 none).toOption.map
      (fun ev => ev.dump.toOption.map
        (fun de => (de.1.map Prod.fst, de.1.lookup "read_bytes",
          de.1.lookup "log_pos", de.1.lookup "event_size", de.1.lookup "flags"))) =
    some (some (["class", "position", "next_binlog", "timestamp"],
      none, none, none, none)) := rfl

/-- Concrete xid packet for the amended-C4 witness. -/
def xidPW : Packet :=
  { data := [42, 0, 0, 0, 0, 0, 0, 0], position := 0, read_bytes := 0,
    event_type := 16, timestamp := 100, log_pos := 7, flags := 1 }

/-- The xid event the amended-C4 witness dumps. -/
def xidEvW : Event := mkEvent xidPW 8 (.xid [] 42)

/-- The dump produced for `xidEvW`. -/
def dxW : List (String × Value) :=
  [("class", .vStr (strCodes "XidEvent")), ("timestamp", .vInt 100),
   ("log_pos", .vInt 7), ("event_size", .vInt 8), ("read_bytes", .vInt 0),
   ("flags", .vInt 1), ("xid", .vInt 42)]

/-- The event state after dumping `xidEvW`. -/
def exW : Event := { xidEvW with hashes := dxW, privHashes := [("xid", .vInt 42)] }

theorem dump_envelope_amended_witness :
    dxW.lookup "class" = some (.vStr (strCodes (className xidEvW.data))) ∧
    dxW.lookup "timestamp" = some (.vInt xidEvW.timestamp) ∧
    dxW.lookup "log_pos" = some (.vInt xidEvW.packet.log_pos) ∧
    dxW.lookup "event_size" = some (.vInt xidEvW.event_size) ∧
    dxW.lookup "read_bytes" = some (.vInt xidEvW.packet.read_bytes) ∧
    dxW.lookup "flags" = some (.vInt xidEvW.packet.flags) ∧
    dxW.lookup "xid" = some (.vInt 42) :=
  dump_envelope_amended xidEvW rfl rfl (fun pos bs nm => by simp [xidEvW, mkEvent])
    dxW exW (by simp [xidEvW, exW, dxW, mkEvent, xidPW, Event.dump, eventPrivDump,
      assocSet, assocUpdate, iter_bytes_to_string, tryBytesToString, strCodes,
      className])

/-- C6: calling dump a second time on the same decoded event (whose two
dump dicts start empty) returns the same mapping and the same event state,
and dump never touches the packet, so no reads or hidden counters are
involved. -/
theorem dump_idempotent (e : Event) (h0 : e.hashes = []) (h1 : e.privHashes = [])
    (d : List (String × Value)) (e1 : Event) (hd : e.dump = .ok (d, e1)) :
    Event.dump e1 = .ok (d, e1) ∧ e1.packet = e.packet := by
  rcases hdata : e.data with
    ⟨cf, sid, gno⟩ | ⟨pos, bs, nm⟩ | _ | _ | ⟨os, x⟩ |
    ⟨os, spid, et, sl, ec, svl, sv, sch, q⟩ | _ <;>
    unfold Event.dump at hd <;> rw [hdata] at hd <;> rw [h0, h1] at hd
  · -- gtid
    simp only [eventPrivDump, assocSet, assocUpdate, List.foldl,
      iter_bytes_to_string, tryBytesToString, List.isEmpty] at hd
    cases hd
    constructor
    · unfold Event.dump
      simp [hdata, eventPrivDump, assocSet, assocUpdate, iter_bytes_to_string,
        tryBytesToString]
    · rfl
  · -- rotate
    cases hd
    constructor
    · unfold Event.dump
      simp [hdata, assocSet]
    · rfl
  · -- formatDescription
    simp only [eventPrivDump, assocSet, iter_bytes_to_string, tryBytesToString] at hd
    cases hd
    constructor
    · unfold Event.dump
      simp [hdata, eventPrivDump, assocSet, iter_bytes_to_string, tryBytesToString]
    · rfl
  · -- stop
    simp only [eventPrivDump, assocSet, iter_bytes_to_string, tryBytesToString] at hd
    cases hd
    constructor
    · unfold Event.dump
      simp [hdata, eventPrivDump, assocSet, iter_bytes_to_string, tryBytesToString]
    · rfl
  · -- xid
    simp only [eventPrivDump, assocSet, assocUpdate, List.foldl,
      iter_bytes_to_string, tryBytesToString, List.isEmpty] at hd
    cases hd
    constructor
    · unfold Event.dump
      simp [hdata, eventPrivDump, assocSet, assocUpdate, iter_bytes_to_string,
        tryBytesToString]
    · rfl
  · -- query
    rcases hsch : utf8Decode sch with _ | s
    · rw [eventPrivDump.eq_def] at hd
      simp only [hsch] at hd
      exact absurd hd (by simp)
    · rw [eventPrivDump.eq_def] at hd
      simp only [hsch] at hd
      simp only [assocSet, assocUpdate, List.foldl, iter_bytes_to_string,
        tryBytesToString, List.isEmpty] at hd
      cases hd
      constructor
      · unfold Event.dump
        rw [eventPrivDump.eq_def]
        simp [hdata, hsch, assocSet, assocUpdate, iter_bytes_to_string,
          tryBytesToString]
      · rfl
  · -- notImplemented
    simp only [eventPrivDump, assocSet, iter_bytes_to_string, tryBytesToString] at hd
    cases hd
    constructor
    · unfold Event.dump
      simp [hdata, eventPrivDump, assocSet, iter_bytes_to_string, tryBytesToString]
    · rfl

/-- Concrete packet for the idempotence witness. -/
def stopPW : Packet :=
  { data := [], position := 0, read_bytes := 0, event_type := 3,
    timestamp := 100, log_pos := 7, flags := 1 }

/-- The stop event the idempotence witness dumps. -/
def stopEvW : Event := mkEvent stopPW 0 .stop

/-- The dump produced for `stopEvW`. -/
def dsW : List (String × Value) :=
  [("class", .vStr (strCodes "StopEvent")), ("timestamp", .vInt 100),
   ("log_pos", .vInt 7), ("event_size", .vInt 0), ("read_bytes", .vInt 0),
   ("flags", .vInt 1)]

/-- The event state after dumping `stopEvW`. -/
def esW : Event := { stopEvW with hashes := dsW }

theorem dump_idempotent_witness :
    Event.dump esW = .ok (dsW, esW) ∧ esW.packet = stopEvW.packet :=
  dump_idempotent stopEvW rfl rfl dsW esW
    (by simp [stopEvW, esW, dsW, mkEvent, stopPW, Event.dump, eventPrivDump,
      assocSet, iter_bytes_to_string, tryBytesToString, strCodes, className])

theorem leNat_nil : leNat [] = 0 := rfl

theorem leNat_cons (b : Nat) (rest : List Nat) :
    leNat (b :: rest) = b + 256 * leNat rest := rfl

theorem leNat_lt_pow (bs : List Nat) (h : ∀ b ∈ bs, b < 256) :
    leNat bs < 256 ^ bs.length := by
  induction bs with
  | nil => simp [leNat_nil]
  | cons b rest ih =>
    have hb := h b (List.mem_cons_self ..)
    have hr := ih (fun x hx => h x (List.mem_cons_of_mem _ hx))
    rw [leNat_cons, List.length_cons, pow_succ]
    omega

theorem slice_bytes_lt {l : List Nat} (h : ∀ b ∈ l, b < 256) (i n : Nat) :
    ∀ b ∈ (l.drop i).take n, b < 256 := fun b hb =>
  h b (List.mem_of_mem_drop (List.mem_of_mem_take hb))

theorem char_toNat_scalar (c : Char) : isScalarCp c.toNat = true := by
  have hv := c.valid
  rcases hv with hlt | ⟨hge, hlt'⟩ <;>
  · simp only [isScalarCp, Bool.and_eq_true, Bool.or_eq_true, decide_eq_true_eq,
      Char.toNat]
    omega

theorem listChar_scalars (l : List Char) :
    (l.map Char.toNat).all isScalarCp = true := by
  induction l with
  | nil => rfl
  | cons c rest ih => simp [char_toNat_scalar c, ih]

/-- Modelled from the spec: the invariants the external framing layer
guarantees for a packet before decoding (§3): the buffer holds bytes, the
envelope integers fit their declared widths (timestamp u32, log_pos u64,
flags u16), and the total byte consumption fits 64 bits. -/
def packetOk (p : Packet) : Bool :=
  p.data.all (fun b => decide (b < 256)) && decide (p.timestamp < 2 ^ 32) &&
  decide (p.log_pos < 2 ^ 64) && decide (p.flags < 2 ^ 16) &&
  decide (p.read_bytes + p.data.length < 2 ^ 64)

/-- The numeric and textual well-formedness of a variant's own fields
that its dump exposes. -/
def dataOk : EventData → Prop
  | .gtid _ _ gno => gno < 2 ^ 64
  | .rotate pos _ nm => pos < 2 ^ 64 ∧ nm.all isScalarCp = true
  | .xid _ x => x < 2 ^ 64
  | .query _ _ et _ _ _ _ _ q => et < 2 ^ 64 ∧ q.all isScalarCp = true
  | _ => True

theorem decodeEvent_ok_bounds (p : Packet) (es : Nat) (os : Option Schemas)
    (ev : Event) (hp : packetOk p = true) (hes : es < 2 ^ 64)
    (h : decodeEvent p es os = .ok ev) :
    ev.hashes = [] ∧ ev.privHashes = [] ∧
    ev.timestamp < 2 ^ 64 ∧ ev.packet.log_pos < 2 ^ 64 ∧
    ev.event_size < 2 ^ 64 ∧ ev.packet.read_bytes < 2 ^ 64 ∧
    ev.packet.flags < 2 ^ 64 ∧ dataOk ev.data := by
  simp only [packetOk, Bool.and_eq_true, decide_eq_true_eq, List.all_eq_true,
    decide_eq_true_eq] at hp
  obtain ⟨⟨⟨⟨hbytes, hts⟩, hlp⟩, hfl⟩, hrb⟩ := hp
  replace hbytes : ∀ b ∈ p.data, b < 256 := fun b hb => hbytes b hb
  unfold decodeEvent at h
  split_ifs at h
  · -- query
    unfold decodeQuery at h
    split at h
    · exact absurd h (by simp)
    · split at h
      · exact absurd h (by simp)
      · rename_i os' hos spid p1 h1
        obtain ⟨_, hp1⟩ := Packet.read_uint32_ok h1
        subst hp1
        split at h
        · exact absurd h (by simp)
        · rename_i et p2 h2
          obtain ⟨hetv, hp2⟩ := Packet.read_uint32_ok h2
          simp only at hetv hp2
          subst hp2
          split at h
          · exact absurd h (by simp)
          · rename_i slb p3 h3
            obtain ⟨_, _, _, hp3⟩ := Packet.read_ok h3
            simp only at hp3
            subst hp3
            split at h
            · exact absurd h (by simp)
            · rename_i ec p4 h4
              obtain ⟨_, hp4⟩ := Packet.read_uint16_ok h4
              simp only at hp4
              subst hp4
              split at h
              · exact absurd h (by simp)
              · rename_i svl p5 h5
                obtain ⟨_, hp5⟩ := Packet.read_uint16_ok h5
                simp only at hp5
                subst hp5
                split at h
                · exact absurd h (by simp)
                · rename_i sv p6 h6
                  obtain ⟨_, _, _, hp6⟩ := Packet.read_ok h6
                  simp only at hp6
                  subst hp6
                  split at h
                  · exact absurd h (by simp)
                  · rename_i sch p7 h7
                    obtain ⟨_, _, _, hp7⟩ := Packet.read_ok h7
                    simp only at hp7
                    subst hp7
                    split at h
                    · exact absurd h (by simp)
                    · rename_i p8 h8
                      unfold Packet.advance at h8
                      split at h8
                      · rename_i q8 p8' hr8
                        obtain ⟨_, _, _, hp8⟩ := Packet.read_ok hr8
                        simp only at hp8
                        subst hp8
                        cases h8
                        split at h
                        · exact absurd h (by simp)
                        · rename_i qb p9 h9
                          obtain ⟨_, hle9, _, hp9⟩ := Packet.read_ok h9
                          simp only at hle9 hp9
                          subst hp9
                          split at h
                          · exact absurd h (by simp)
                          · rename_i q hq
                            cases h
                            refine ⟨rfl, rfl, ?_, ?_, ?_, ?_, ?_, ?_⟩
                            · simpa [mkEvent] using by omega
                            · simpa [mkEvent] using by omega
                            · simpa [mkEvent] using hes
                            · simp only [mkEvent]
                              omega
                            · simpa [mkEvent] using by omega
                            · simp only [mkEvent, dataOk]
                              constructor
                              · rw [hetv]
                                have := leNat_lt_pow
                                  ((p.data.drop (p.position + 4)).take 4)
                                  (slice_bytes_lt hbytes _ _)
                                have hlen : ((p.data.drop (p.position + 4)).take
                                    4).length ≤ 4 := by
                                  simp [List.length_take]
                                calc leNat ((p.data.drop (p.position + 4)).take 4)
                                    < 256 ^ ((p.data.drop (p.position + 4)).take 4).length := this
                                  _ ≤ 256 ^ 4 := Nat.pow_le_pow_right (by omega) hlen
                                  _ < 2 ^ 64 := by norm_num
                              · exact utf8Run_scalars _ 0 0 0 q hq
                      · exact absurd h8 (by simp)
  · -- stop
    unfold decodeStop at h
    cases h
    exact ⟨rfl, rfl, by simpa [mkEvent] using by omega,
      by simpa [mkEvent] using by omega, by simpa [mkEvent] using hes,
      by simp only [mkEvent]; omega, by simpa [mkEvent] using by omega,
      by simp [mkEvent, dataOk]⟩
  · -- rotate
    unfold decodeRotate at h
    split at h
    · exact absurd h (by simp)
    · rename_i posBytes p1 h1
      obtain ⟨_, _, hbs1, hp1⟩ := Packet.read_ok h1
      subst hp1
      split at h
      · exact absurd h (by simp)
      · rename_i nameBytes p2 h2
        obtain ⟨_, hle2, _, hp2⟩ := Packet.read_ok h2
        simp only at hle2 hp2
        subst hp2
        split at h
        · exact absurd h (by simp)
        · rename_i nm hnm
          cases h
          refine ⟨rfl, rfl, ?_, ?_, ?_, ?_, ?_, ?_⟩
          · simpa [mkEvent] using by omega
          · simpa [mkEvent] using by omega
          · simpa [mkEvent] using hes
          · simp only [mkEvent]
            omega
          · simpa [mkEvent] using by omega
          · simp only [mkEvent, dataOk]
            constructor
            · rw [hbs1]
              have := leNat_lt_pow ((p.data.drop p.position).take (8 : Int).toNat)
                (slice_bytes_lt hbytes _ _)
              have hlen : ((p.data.drop p.position).take (8 : Int).toNat).length ≤ 8 := by
                simp [List.length_take]
              calc leNat ((p.data.drop p.position).take (8 : Int).toNat)
                  < 256 ^ ((p.data.drop p.position).take (8 : Int).toNat).length := this
                _ ≤ 256 ^ 8 := Nat.pow_le_pow_right (by omega) hlen
                _ ≤ 2 ^ 64 := by norm_num
            · exact utf8Run_scalars _ 0 0 0 nm hnm
  · -- formatDescription
    unfold decodeFormatDescription at h
    cases h
    exact ⟨rfl, rfl, by simpa [mkEvent] using by omega,
      by simpa [mkEvent] using by omega, by simpa [mkEvent] using hes,
      by simp only [mkEvent]; omega, by simpa [mkEvent] using by omega,
      by simp [mkEvent, dataOk]⟩
  · -- xid
    unfold decodeXid at h
    split at h
    · exact absurd h (by simp)
    · split at h
      · exact absurd h (by simp)
      · rename_i os' hos xb p1 h1
        obtain ⟨_, hle1, hxb, hp1⟩ := Packet.read_ok h1
        subst hp1
        cases h
        refine ⟨rfl, rfl, ?_, ?_, ?_, ?_, ?_, ?_⟩
        · simpa [mkEvent] using by omega
        · simpa [mkEvent] using by omega
        · simpa [mkEvent] using hes
        · simp only [mkEvent]
          omega
        · simpa [mkEvent] using by omega
        · simp only [mkEvent, dataOk]
          rw [hxb]
          have := leNat_lt_pow ((p.data.drop p.position).take (8 : Int).toNat)
            (slice_bytes_lt hbytes _ _)
          have hlen : ((p.data.drop p.position).take (8 : Int).toNat).length ≤ 8 := by
            simp [List.length_take]
          calc leNat ((p.data.drop p.position).take (8 : Int).toNat)
              < 256 ^ ((p.data.drop p.position).take (8 : Int).toNat).length := this
            _ ≤ 256 ^ 8 := Nat.pow_le_pow_right (by omega) hlen
            _ ≤ 2 ^ 64 := by norm_num
  · -- gtid
    unfold decodeGtid at h
    split at h
    · exact absurd h (by simp)
    · rename_i cb p1 h1
      obtain ⟨_, _, _, hp1⟩ := Packet.read_ok h1
      subst hp1
      split at h
      · exact absurd h (by simp)
      · rename_i sid p2 h2
        obtain ⟨_, _, _, hp2⟩ := Packet.read_ok h2
        simp only at hp2
        subst hp2
        split at h
        · exact absurd h (by simp)
        · rename_i gb p3 h3
          obtain ⟨_, hle3, hgb, hp3⟩ := Packet.read_ok h3
          simp only at hle3 hgb hp3
          subst hp3
          cases h
          refine ⟨rfl, rfl, ?_, ?_, ?_, ?_, ?_, ?_⟩
          · simpa [mkEvent] using by omega
          · simpa [mkEvent] using by omega
          · simpa [mkEvent] using hes
          · simp only [mkEvent]
            omega
          · simpa [mkEvent] using by omega
          · simp only [mkEvent, dataOk]
            rw [hgb]
            have := leNat_lt_pow
              ((p.data.drop (p.position + (1 : Int).toNat + (16 : Int).toNat)).take
                (8 : Int).toNat) (slice_bytes_lt hbytes _ _)
            have hlen : (((p.data.drop
                (p.position + (1 : Int).toNat + (16 : Int).toNat)).take
                (8 : Int).toNat)).length ≤ 8 := by
              simp [List.length_take]
            calc leNat ((p.data.drop
                  (p.position + (1 : Int).toNat + (16 : Int).toNat)).take (8 : Int).toNat)
                < 256 ^ (((p.data.drop
                  (p.position + (1 : Int).toNat + (16 : Int).toNat)).take
                  (8 : Int).toNat)).length := this
              _ ≤ 256 ^ 8 := Nat.pow_le_pow_right (by omega) hlen
              _ ≤ 2 ^ 64 := by norm_num
  · -- notImplemented
    unfold decodeNotImplemented at h
    split at h
    · exact absurd h (by simp)
    · rename_i p1 hr1
      unfold Packet.advance at hr1
      split at hr1
      · rename_i q2 p2 hr2
        obtain ⟨_, hle2, _, hp2⟩ := Packet.read_ok hr2
        subst hp2
        cases hr1
        cases h
        exact ⟨rfl, rfl, by simpa [mkEvent] using by omega,
          by simpa [mkEvent] using by omega, by simpa [mkEvent] using hes,
          by simp only [mkEvent]; omega, by simpa [mkEvent] using by omega,
          by simp [mkEvent, dataOk]⟩
      · exact absurd hr1 (by simp)

theorem dump_entriesOk (e : Event) (h0 : e.hashes = []) (h1 : e.privHashes = [])
    (henv : e.timestamp < 2 ^ 64 ∧ e.packet.log_pos < 2 ^ 64 ∧
      e.event_size < 2 ^ 64 ∧ e.packet.read_bytes < 2 ^ 64 ∧
      e.packet.flags < 2 ^ 64)
    (hdata : dataOk e.data)
    (d : List (String × Value)) (e' : Event) (hd : e.dump = .ok (d, e')) :
    entriesOk d = true := by
  obtain ⟨henv1, henv2, henv3, henv4, henv5⟩ := henv
  rcases hdt : e.data with
    ⟨cf, sid, gno⟩ | ⟨pos, bs, nm⟩ | _ | _ | ⟨os, x⟩ |
    ⟨os, spid, et, sl, ec, svl, sv, sch, q⟩ | _ <;>
    rw [hdt] at hdata <;> unfold Event.dump at hd <;> rw [hdt] at hd <;>
    rw [h0, h1] at hd <;> simp only [dataOk] at hdata
  · -- gtid
    simp only [eventPrivDump, assocSet, assocUpdate, List.foldl,
      iter_bytes_to_string, tryBytesToString, List.isEmpty] at hd
    cases hd
    simp [entriesOk, valueOk, henv1, henv2, henv3, henv4, henv5, hdata,
      listChar_scalars, strCodes, iter_bytes_to_string, tryBytesToString,
      className, isScalarCp] <;> omega
  · -- rotate
    cases hd
    simp [entriesOk, valueOk, henv1, hdata.1, hdata.2, listChar_scalars, strCodes, iter_bytes_to_string, tryBytesToString,
      className, isScalarCp] <;> omega
  · -- formatDescription
    simp only [eventPrivDump, assocSet, iter_bytes_to_string, tryBytesToString] at hd
    cases hd
    simp [entriesOk, valueOk, henv1, henv2, henv3, henv4, henv5,
      listChar_scalars, strCodes, iter_bytes_to_string, tryBytesToString,
      className, isScalarCp] <;> omega
  · -- stop
    simp only [eventPrivDump, assocSet, iter_bytes_to_string, tryBytesToString] at hd
    cases hd
    simp [entriesOk, valueOk, henv1, henv2, henv3, henv4, henv5,
      listChar_scalars, strCodes, iter_bytes_to_string, tryBytesToString,
      className, isScalarCp] <;> omega
  · -- xid
    simp only [eventPrivDump, assocSet, assocUpdate, List.foldl,
      iter_bytes_to_string, tryBytesToString, List.isEmpty] at hd
    cases hd
    simp [entriesOk, valueOk, henv1, henv2, henv3, henv4, henv5, hdata,
      listChar_scalars, strCodes, iter_bytes_to_string, tryBytesToString,
      className, isScalarCp] <;> omega
  · -- query
    rcases hsch : utf8Decode sch with _ | s
    · rw [eventPrivDump.eq_def] at hd
      simp only [hsch] at hd
      exact absurd hd (by simp)
    · rw [eventPrivDump.eq_def] at hd
      simp only [hsch] at hd
      simp only [assocSet, assocUpdate, List.foldl, iter_bytes_to_string,
        tryBytesToString, List.isEmpty] at hd
      cases hd
      simp [entriesOk, valueOk, henv1, henv2, henv3, henv4, henv5, hdata.1,
        hdata.2, listChar_scalars, strCodes, iter_bytes_to_string,
        tryBytesToString, className, isScalarCp,
        utf8Run_scalars sch 0 0 0 s hsch] <;> omega
  · -- notImplemented
    simp only [eventPrivDump, assocSet, iter_bytes_to_string, tryBytesToString] at hd
    cases hd
    simp [entriesOk, valueOk, henv1, henv2, henv3, henv4, henv5,
      listChar_scalars, strCodes, iter_bytes_to_string, tryBytesToString,
      className, isScalarCp] <;> omega

/-- C5: for every decoded event, every value in the dump mapping is an
unsigned 64-bit integer, a boolean flag, text made of Unicode scalar
values, or a nested mapping of the same shape; no raw byte string
appears anywhere in the dump output. -/
theorem dump_values_wellformed (p : Packet) (es : Nat) (os : Option Schemas)
    (ev : Event) (d : List (String × Value)) (e' : Event)
    (hp : packetOk p = true) (hes : es < 2 ^ 64)
    (hdec : decodeEvent p es os = .ok ev) (hd : ev.dump = .ok (d, e')) :
    entriesOk d = true := by
  obtain ⟨h0, h1, he1, he2, he3, he4, he5, hdata⟩ :=
    decodeEvent_ok_bounds p es os ev hp hes hdec
  exact dump_entriesOk ev h0 h1 ⟨he1, he2, he3, he4, he5⟩ hdata d e' hd

/-- Concrete unrecognized-code packet for the value-well-formedness
witness. -/
def ni5P : Packet :=
  { data := [5, 6, 7], position := 0, read_bytes := 0, event_type := 200,
    timestamp := 100, log_pos := 7, flags := 1 }

/-- The event `ni5P` decodes to. -/
def ni5Ev : Event := mkEvent { ni5P with position := 3, read_bytes := 3 } 3 .notImplemented

/-- The dump produced for `ni5Ev`. -/
def d5W : List (String × Value) :=
  [("class", .vStr (strCodes "NotImplementedEvent")), ("timestamp", .vInt 100),
   ("log_pos", .vInt 7), ("event_size", .vInt 3), ("read_bytes", .vInt 3),
   ("flags", .vInt 1)]

/-- The event state after dumping `ni5Ev`. -/
def e5W : Event := { ni5Ev with hashes := d5W }

theorem dump_values_wellformed_witness :
    packetOk ni5P = true ∧ decodeEvent ni5P 3 none = .ok ni5Ev ∧
    ni5Ev.dump = .ok (d5W, e5W) ∧ entriesOk d5W = true := by
  have hdec : decodeEvent ni5P 3 none = .ok ni5Ev := by rfl
  have hd : ni5Ev.dump = .ok (d5W, e5W) := by
    simp [ni5Ev, e5W, d5W, mkEvent, ni5P, Event.dump, eventPrivDump, assocSet,
      iter_bytes_to_string, tryBytesToString, strCodes, className]
  exact ⟨by decide, hdec, hd,
    dump_values_wellformed ni5P 3 none ni5Ev d5W e5W (by decide) (by decide) hdec hd⟩
